import Mathlib

/-!
# Verification of the PIN-protected wallet core

Shallow embedding, in Lean 4, of the wallet service's core: PIN custody
(`app/core/crypto.py`, `app/core/security.py`), the wallet ledger CRUD
layer (`app/crud/wallet.py`), and the rate-limit configuration
(`app/core/rate_limiter.py`).

Modelling conventions:

* Monetary balances are Python floats in the source; they are embedded as
  exact rationals (`ℚ`), abstracting from floating-point rounding.
* bcrypt (both via passlib's `CryptContext` in `crypto.py` and via direct
  `bcrypt` calls in `security.py`) is modelled as an *ideal* salted hash:
  the digest is determined by the salt and the hashed input and is
  injective in the input for a fixed salt, so a well-formed credential is
  represented by its cost, salt and hashed input.  One-wayness is not
  modelled.  The randomness of salt generation is made explicit: the
  hashing functions take the freshly drawn salt as an argument.
* Python exceptions are embedded as `Except` results; a Python function
  documented never to raise is embedded as a total function into `Bool`.
* The database session is embedded as a list of wallet rows; a committed
  mutation replaces the row with the matching primary key.
-/

namespace BuiltToBreak

/-! ## Python string-digit semantics

`str.isdigit` in Python is `True` for every character with Unicode
property `Numeric_Type = Digit` or `Numeric_Type = Decimal` — this
includes the ASCII digits `0-9` but also, e.g., the Arabic-Indic digits
U+0660–U+0669, Devanagari digits U+0966–U+096F, fullwidth digits
U+FF10–U+FF19 and the superscripts ¹²³.  We model the predicate on the
code-point ranges listed here (a subset of the true Unicode set, which
contains further digit ranges; every character accepted by this model is
accepted by Python). -/

/-- Python's `str.isdigit` on a single character, modelled on the
Unicode digit ranges listed above.  `Char.isDigit` is the ASCII case. -/
def pyIsDigit (c : Char) : Bool :=
  c.isDigit
  || (0x660 ≤ c.toNat && c.toNat ≤ 0x669)
  || (0x6F0 ≤ c.toNat && c.toNat ≤ 0x6F9)
  || (0x966 ≤ c.toNat && c.toNat ≤ 0x96F)
  || (0xFF10 ≤ c.toNat && c.toNat ≤ 0xFF19)
  || c.toNat == 0xB9 || c.toNat == 0xB2 || c.toNat == 0xB3

/-- Python's `s.isdigit()`: `False` on the empty string, otherwise true
iff every character is a digit. -/
def pyStrIsDigit (s : String) : Bool :=
  !(s == "") && s.data.all pyIsDigit

/-! ## PIN credentials -/

/-- A stored PIN credential string.  A well-formed bcrypt credential
(`$2b$cost$salt·digest`) is represented by its cost, its salt, and — per
the ideal-hash convention above — the input it hashed; every other
string (including the empty string) is `malformed`. -/
inductive PinCredential where
  | bcrypt (cost : Nat) (salt : Nat) (hashedInput : String)
  | malformed (raw : String)
deriving DecidableEq, Repr

/-- Default bcrypt cost (both passlib's bcrypt scheme and
`bcrypt.gensalt()` default to 12 rounds). -/
def BCRYPT_COST : Nat := 12

/-- The two `ValueError`s raised by `crypto.hash_pin`; both realise the
spec's `InvalidPinFormat` condition. -/
inductive PinFormatError where
  | mustContainOnlyDigits
  | mustBeExactly4Digits
deriving DecidableEq, Repr

namespace Crypto

/-- `app/core/crypto.py : hash_pin`.  Validates the PIN
(`if not pin or not pin.isdigit()` then `if len(pin) != 4`), then hashes
via `pwd_context.hash`, which draws a fresh random salt — made explicit
as the `salt` argument. -/
def hash_pin (pin : String) (salt : Nat) : Except PinFormatError PinCredential :=
  if pin == "" || !(pyStrIsDigit pin) then
    .error .mustContainOnlyDigits
  else if pin.length != 4 then
    .error .mustBeExactly4Digits
  else
    .ok (.bcrypt BCRYPT_COST salt pin)

/-- passlib's `pwd_context.verify`: re-hashes the candidate with the
salt and cost embedded in the credential and compares; raises (modelled
as `.error ()`) when the stored credential is not a well-formed bcrypt
string. -/
def pwd_context_verify (plain : String) (cred : PinCredential) : Except Unit Bool :=
  match cred with
  | .bcrypt _ _ hashedInput => .ok (plain == hashedInput)
  | .malformed _ => .error ()

/-- Whether the stored credential is the empty string (the only falsy
credential string in Python's `if not hashed_pin`). -/
def credentialIsEmptyString : PinCredential → Bool
  | .malformed "" => true
  | _ => false

/-- `app/core/crypto.py : verify_pin`.  Returns `False` on an empty
candidate or empty credential, otherwise calls `pwd_context.verify`
inside `try/except`, returning `False` on any exception. -/
def verify_pin (plain_pin : String) (hashed_pin : PinCredential) : Bool :=
  if plain_pin == "" || credentialIsEmptyString hashed_pin then
    false
  else
    match pwd_context_verify plain_pin hashed_pin with
    | .ok b => b
    | .error _ => false

end Crypto

namespace Security

/-- `app/core/security.py : hash_pin`.  No input validation at all:
encodes the PIN and hashes it with `bcrypt.hashpw(pin, bcrypt.gensalt())`;
the freshly generated salt is the explicit `salt` argument. -/
def hash_pin (pin : String) (salt : Nat) : PinCredential :=
  .bcrypt BCRYPT_COST salt pin

/-- `bcrypt.checkpw`: compares the candidate against the stored hash,
raising (modelled as `.error ()`) on a malformed stored hash. -/
def bcrypt_checkpw (plain : String) (cred : PinCredential) : Except Unit Bool :=
  match cred with
  | .bcrypt _ _ hashedInput => .ok (plain == hashedInput)
  | .malformed _ => .error ()

/-- `app/core/security.py : verify_pin`.  Calls `bcrypt.checkpw` inside
`try/except`, returning `False` on any exception. -/
def verify_pin (plain_pin : String) (hashed_pin : PinCredential) : Bool :=
  match bcrypt_checkpw plain_pin hashed_pin with
  | .ok b => b
  | .error _ => false

end Security

/-! ## Wallet ledger (`app/crud/wallet.py`) -/

/-- `WalletStatus` enum from `app/database/models.py` (declared but not
exercised by the balance-mutation logic). -/
inductive WalletStatus where
  | ACTIVE
  | FROZEN
  | CLOSED
deriving DecidableEq, Repr

/-- A wallet row: `id, user_id, balance, pin_hash, status`
(fields per `app/schemas/wallet.py` and the ORM model). -/
structure Wallet where
  id : Nat
  user_id : Nat
  balance : ℚ
  pin_hash : PinCredential
  status : WalletStatus
deriving DecidableEq, Repr

/-- The database session's view of the wallet table: a list of rows. -/
abbrev WalletDb := List Wallet

/-- `get_wallet`: `db.query(Wallet).filter(Wallet.id == wallet_id).first()`. -/
def get_wallet (db : WalletDb) (wallet_id : Nat) : Option Wallet :=
  db.find? (fun w => w.id == wallet_id)

/-- Committing a mutation of the row with `w'.id`: every row with that
primary key is replaced by `w'`. -/
def db_update (db : WalletDb) (w' : Wallet) : WalletDb :=
  db.map (fun w => if w.id == w'.id then w' else w)

/-- Sum of all wallet balances in the table. -/
def totalBalance (db : WalletDb) : ℚ :=
  (db.map Wallet.balance).sum

/-- `verify_wallet_pin` (`app/crud/wallet.py`): `False` when the wallet
does not exist, otherwise `verify_pin(pin, wallet.pin_hash)`. -/
def verify_wallet_pin (db : WalletDb) (wallet_id : Nat) (pin : String) : Bool :=
  match get_wallet db wallet_id with
  | none => false
  | some wallet => Crypto.verify_pin pin wallet.pin_hash

/-- Result of the deposit path: `walletNotFound` embeds the `None`
return, `incorrectPin` the `HTTPException(401, "Incorrect PIN")`,
`invalidAmount` the spec's `InvalidAmount` rejection. -/
inductive DepositOutcome where
  | ok (w : Wallet)
  | walletNotFound
  | incorrectPin
  | invalidAmount
deriving DecidableEq, Repr

/-- `deposit_wallet` (`app/crud/wallet.py`): fetch the wallet (`None`
when absent), verify the PIN via `crypto.verify_pin` (raising 401 on
mismatch, with no commit), then `wallet.balance += amount; db.commit()`.
Note the source performs no amount validation here. -/
def deposit_wallet (db : WalletDb) (wallet_id : Nat) (amount : ℚ) (pin : String) :
    DepositOutcome × WalletDb :=
  match get_wallet db wallet_id with
  | none => (.walletNotFound, db)
  | some wallet =>
    if !(Crypto.verify_pin pin wallet.pin_hash) then
      (.incorrectPin, db)
    else
      let wallet' := { wallet with balance := wallet.balance + amount }
      (.ok wallet', db_update db wallet')

/-- Modelled from the spec: the deposit API route (`app/api/wallets.py`,
absent from `src/`) — per §4.3 it verifies `amount > 0`, failing with
`InvalidAmount`, before invoking the CRUD layer's `deposit_wallet`. -/
def deposit (db : WalletDb) (wallet_id : Nat) (amount : ℚ) (pin : String) :
    DepositOutcome × WalletDb :=
  if amount ≤ 0 then
    (.invalidAmount, db)
  else
    deposit_wallet db wallet_id amount pin

/-! ## Transfer engine (modelled from the spec)

The transfer routes live in `app/api/transfer.py`, which is not under
`src/`; the definitions below are modelled from the spec's §4.2–4.3. -/

/-- Failure modes of the Ledger Store's atomic read-modify-write. -/
inductive MutateError where
  | notFound
  | insufficientFunds
deriving DecidableEq, Repr

/-- Modelled from the spec: the Ledger Store's `atomic_mutate`
(§4.2; the storage layer `app/database/*` is absent from `src/`).
Applies `fn` to the current balance under the wallet's mutation lock
and rejects results that violate `balance >= 0` by raising
`InsufficientFunds` without applying any change. -/
def atomic_mutate (db : WalletDb) (wallet_id : Nat) (fn : ℚ → ℚ) :
    Except MutateError (Wallet × WalletDb) :=
  match get_wallet db wallet_id with
  | none => .error .notFound
  | some w =>
    let nb := fn w.balance
    if nb < 0 then
      .error .insufficientFunds
    else
      let w' := { w with balance := nb }
      .ok (w', db_update db w')

/-- Outcome of a single transfer, covering the spec's error taxonomy
for the Transfer operation. -/
inductive TransferOutcome where
  | ok (fromW toW : Wallet)
  | selfTransferNotAllowed
  | invalidAmount
  | walletNotFound
  | incorrectPin
  | insufficientFunds
deriving DecidableEq, Repr

/-- Modelled from the spec: `Transfer(from, to, amount, pin)`
(§4.3; `app/api/transfer.py` is absent from `src/`).  Verifies
`from != to` and `amount > 0`, verifies the PIN against `from`'s hash,
debits `from` via `atomic_mutate` (aborting on `InsufficientFunds`
before any credit), then credits `to` via `atomic_mutate`.  If the
credit fails after a successful debit (e.g. `to` not found) the engine
compensates by reversing the debit, so the failure path returns the
original state — all-or-nothing from the caller's perspective. -/
def transfer (db : WalletDb) (from_id to_id : Nat) (amount : ℚ) (pin : String) :
    TransferOutcome × WalletDb :=
  if from_id == to_id then
    (.selfTransferNotAllowed, db)
  else if amount ≤ 0 then
    (.invalidAmount, db)
  else
    match get_wallet db from_id with
    | none => (.walletNotFound, db)
    | some fromW =>
      if !(Crypto.verify_pin pin fromW.pin_hash) then
        (.incorrectPin, db)
      else
        match atomic_mutate db from_id (fun b => b - amount) with
        | .error .notFound => (.walletNotFound, db)
        | .error .insufficientFunds => (.insufficientFunds, db)
        | .ok (fromW', db1) =>
          match atomic_mutate db1 to_id (fun b => b + amount) with
          | .error _ => (.walletNotFound, db)
          | .ok (toW', db2) => (.ok fromW' toW', db2)

/-! ## Rate/abuse guard

`app/core/rate_limiter.py` declares the limiter and its thresholds; the
window bookkeeping (the `slowapi`/`limits` library) and the route
decorators are not under `src/`, so the counter is modelled from the
spec's §4.4. -/

/-- `PIN_VERIFY_LIMIT = "5/minute"`: at most 5 PIN attempts per minute
per caller. -/
def PIN_VERIFY_LIMIT_COUNT : Nat := 5

/-- The one-minute window of `"5/minute"`, in seconds. -/
def PIN_VERIFY_WINDOW_SECONDS : Nat := 60

/-- `TRANSFER_LIMIT = "10/minute"`. -/
def TRANSFER_LIMIT_COUNT : Nat := 10

/-- `API_GENERAL_LIMIT = "100/minute"`. -/
def API_GENERAL_LIMIT_COUNT : Nat := 100

/-- Number of a caller's previous attempts (list of timestamps, in
seconds) lying in the window of length `per` ending at time `t`. -/
def countInWindow (attempts : List Nat) (t per : Nat) : Nat :=
  (attempts.filter (fun s => s ≤ t && t < s + per)).length

/-- Modelled from the spec: `RateGuard.allow(caller_key, bucket)` —
the attempt at time `t` is allowed iff fewer than `limit` previous
attempts fall in the window. -/
def rate_allow (attempts : List Nat) (t limit per : Nat) : Bool :=
  countInWindow attempts t per < limit

/-- Outcome of a guarded PIN verification. -/
inductive PinVerifyOutcome where
  | rateLimitExceeded
  | result (ok : Bool)
deriving DecidableEq, Repr

/-- Modelled from the spec: a PIN verification behind the rate guard
(§4.4 — the `slowapi` decorator wiring in the API routes is absent from
`src/`).  When the guard denies the attempt, the operation is rejected
with `RateLimitExceeded` before PIN Custody is invoked and no state is
touched; otherwise the attempt is recorded and `crypto.verify_pin`
runs. -/
def pin_verify_guarded (attempts : List Nat) (t : Nat) (pin : String)
    (cred : PinCredential) : PinVerifyOutcome × List Nat :=
  if rate_allow attempts t PIN_VERIFY_LIMIT_COUNT PIN_VERIFY_WINDOW_SECONDS then
    (.result (Crypto.verify_pin pin cred), t :: attempts)
  else
    (.rateLimitExceeded, attempts)

/-! ## Ledger lemmas -/

/-- A wallet found by `get_wallet` is in the table and has the looked-up id. -/
theorem get_wallet_mem {db : WalletDb} {i : Nat} {w : Wallet}
    (h : get_wallet db i = some w) : w ∈ db ∧ w.id = i := by
  unfold get_wallet at h
  refine ⟨List.mem_of_find?_eq_some h, ?_⟩
  have := List.find?_some h
  simpa using this

/-- Updating a row whose id is absent from the table is a no-op. -/
theorem db_update_eq_of_not_mem_id {db : WalletDb} {w' : Wallet}
    (h : ∀ u ∈ db, u.id ≠ w'.id) : db_update db w' = db := by
  induction db with
  | nil => rfl
  | cons a tl ih =>
    have ha : a.id ≠ w'.id := h a (List.mem_cons_self a tl)
    have htl : ∀ u ∈ tl, u.id ≠ w'.id := fun u hu => h u (List.mem_cons_of_mem a hu)
    simp only [db_update, List.map_cons] at *
    rw [if_neg (by simpa using ha)]
    have := ih htl
    simp only [db_update] at this
    rw [this]

/-- `db_update` preserves the sequence of primary keys. -/
theorem db_update_map_id (db : WalletDb) (w' : Wallet) :
    (db_update db w').map Wallet.id = db.map Wallet.id := by
  induction db with
  | nil => rfl
  | cons a tl ih =>
    simp only [db_update, List.map_cons] at *
    by_cases hc : (a.id == w'.id) = true
    · rw [if_pos hc, ih]
      have : a.id = w'.id := by simpa using hc
      simp [this]
    · rw [if_neg hc, ih]

/-- Balance sum of a `cons`. -/
theorem totalBalance_cons (w : Wallet) (db : WalletDb) :
    totalBalance (w :: db) = w.balance + totalBalance db := by
  simp [totalBalance]

/-- With unique primary keys, updating the row `w` to `w'` changes the
balance sum by exactly `w'.balance - w.balance`. -/
theorem totalBalance_db_update {db : WalletDb} {w w' : Wallet}
    (hnd : (db.map Wallet.id).Nodup) (hw : w ∈ db) (hid : w'.id = w.id) :
    totalBalance (db_update db w') = totalBalance db - w.balance + w'.balance := by
  induction db with
  | nil => cases hw
  | cons a tl ih =>
    rw [List.map_cons, List.nodup_cons] at hnd
    rcases List.mem_cons.mp hw with rfl | hwtl
    · have hcond : (w.id == w'.id) = true := by simp [hid]
      have hnotin : ∀ u ∈ tl, u.id ≠ w'.id := by
        intro u hu hcontra
        exact hnd.1 (hid ▸ hcontra ▸ List.mem_map_of_mem Wallet.id hu)
      simp only [db_update, List.map_cons]
      rw [if_pos hcond]
      have hno : db_update tl w' = tl := db_update_eq_of_not_mem_id hnotin
      simp only [db_update] at hno
      rw [hno, totalBalance_cons, totalBalance_cons]
      ring
    · have haid : a.id ≠ w.id := by
        intro hcontra
        exact hnd.1 (hcontra ▸ List.mem_map_of_mem Wallet.id hwtl)
      have hcond : (a.id == w'.id) = false := by
        simp [hid, haid]
      simp only [db_update, List.map_cons]
      rw [if_neg (by simp [hcond])]
      have := ih hnd.2 hwtl
      simp only [db_update] at this
      rw [totalBalance_cons, totalBalance_cons, this]
      ring

/-- Every row of an updated table is the new row or an old row. -/
theorem mem_db_update {db : WalletDb} {w' u : Wallet}
    (hu : u ∈ db_update db w') : u = w' ∨ u ∈ db := by
  unfold db_update at hu
  rcases List.mem_map.mp hu with ⟨v, hv, he⟩
  by_cases hc : (v.id == w'.id) = true
  · rw [if_pos hc] at he
    exact Or.inl he.symm
  · rw [if_neg hc] at he
    exact Or.inr (he ▸ hv)

/-- Nonnegativity of all balances is preserved by an update with a
nonnegative new balance. -/
theorem nonneg_db_update {db : WalletDb} {w' : Wallet}
    (h : ∀ u ∈ db, 0 ≤ u.balance) (h' : 0 ≤ w'.balance) :
    ∀ u ∈ db_update db w', 0 ≤ u.balance := by
  intro u hu
  rcases mem_db_update hu with rfl | hmem
  · exact h'
  · exact h u hmem

/-- Inversion of a successful `atomic_mutate`: the wallet existed, the
new balance is `fn` of the old one, the `balance >= 0` guard passed, and
the table was updated at that row. -/
theorem atomic_mutate_ok {db : WalletDb} {i : Nat} {fn : ℚ → ℚ}
    {w' : Wallet} {db' : WalletDb}
    (h : atomic_mutate db i fn = .ok (w', db')) :
    ∃ w, get_wallet db i = some w ∧ w' = { w with balance := fn w.balance } ∧
      0 ≤ fn w.balance ∧ db' = db_update db w' := by
  unfold atomic_mutate at h
  cases hg : get_wallet db i with
  | none => rw [hg] at h; cases h
  | some w =>
    rw [hg] at h
    dsimp only at h
    by_cases hb : fn w.balance < 0
    · rw [if_pos hb] at h; cases h
    · rw [if_neg hb] at h
      have hp := Except.ok.inj h
      have hw' : w' = { w with balance := fn w.balance } := (Prod.mk.injEq _ _ _ _ ▸ hp).1.symm
      refine ⟨w, rfl, hw', le_of_not_lt hb, ?_⟩
      have hdb : db' = db_update db { w with balance := fn w.balance } :=
        (Prod.mk.injEq _ _ _ _ ▸ hp).2.symm
      rw [hdb, hw']

/-- All balances in the table are nonnegative. -/
def allBalancesNonneg (db : WalletDb) : Prop :=
  ∀ u ∈ db, 0 ≤ u.balance

instance (db : WalletDb) : Decidable (allBalancesNonneg db) := by
  unfold allBalancesNonneg
  infer_instance

/-- Case analysis on the deposit path: either the table is unchanged
(rejection) or the amount was positive, the wallet was found, and its
row was credited by the amount. -/
theorem deposit_snd (db : WalletDb) (i : Nat) (amount : ℚ) (pin : String) :
    (deposit db i amount pin).2 = db ∨
    (0 < amount ∧ ∃ w, get_wallet db i = some w ∧
      (deposit db i amount pin).2 =
        db_update db { w with balance := w.balance + amount }) := by
  unfold deposit
  by_cases ha : amount ≤ 0
  · rw [if_pos ha]
    exact Or.inl rfl
  · rw [if_neg ha]
    unfold deposit_wallet
    cases hg : get_wallet db i with
    | none => exact Or.inl rfl
    | some w =>
      dsimp only
      by_cases hp : Crypto.verify_pin pin w.pin_hash = true
      · rw [if_neg (by simp [hp])]
        exact Or.inr ⟨lt_of_not_le ha, w, rfl, rfl⟩
      · rw [if_pos (by simp [Bool.not_eq_true] at hp ⊢; exact hp)]
        exact Or.inl rfl

/-- Case analysis on the transfer path: either the table is unchanged
(any rejection, including the compensated credit failure) or the debit
and credit both went through the atomic-mutate guard. -/
theorem transfer_snd (db : WalletDb) (f t : Nat) (amount : ℚ) (pin : String) :
    (transfer db f t amount pin).2 = db ∨
    ∃ fw fw' db1 tw tw',
      get_wallet db f = some fw ∧
      fw' = { fw with balance := fw.balance - amount } ∧
      0 ≤ fw.balance - amount ∧
      db1 = db_update db fw' ∧
      get_wallet db1 t = some tw ∧
      tw' = { tw with balance := tw.balance + amount } ∧
      0 ≤ tw.balance + amount ∧
      (transfer db f t amount pin).2 = db_update db1 tw' := by
  unfold transfer
  by_cases hft : (f == t) = true
  · rw [if_pos hft]
    exact Or.inl rfl
  rw [if_neg hft]
  by_cases ha : amount ≤ 0
  · rw [if_pos ha]
    exact Or.inl rfl
  rw [if_neg ha]
  cases hg : get_wallet db f with
  | none => exact Or.inl rfl
  | some fw =>
    dsimp only
    by_cases hp : Crypto.verify_pin pin fw.pin_hash = true
    · rw [if_neg (by simp [hp])]
      cases hd : atomic_mutate db f (fun b => b - amount) with
      | error e =>
        cases e
        · exact Or.inl rfl
        · exact Or.inl rfl
      | ok pr =>
        obtain ⟨fw', db1⟩ := pr
        dsimp only
        obtain ⟨w0, hw0, hfw', hnnf, hdb1⟩ := atomic_mutate_ok hd
        have hw0' : w0 = fw := by
          have : some w0 = some fw := hw0.symm.trans hg
          exact Option.some.inj this
        subst hw0'
        cases hc : atomic_mutate db1 t (fun b => b + amount) with
        | error e => exact Or.inl rfl
        | ok qr =>
          obtain ⟨tw', db2⟩ := qr
          dsimp only
          obtain ⟨tw, htw, htw', hnnt, hdb2⟩ := atomic_mutate_ok hc
          exact Or.inr ⟨w0, fw', db1, tw, tw', rfl, hfw', hnnf, hdb1, htw, htw', hnnt, hdb2⟩
    · rw [if_pos (by simp [Bool.not_eq_true] at hp ⊢; exact hp)]
      exact Or.inl rfl

/-- On a PIN of exactly 4 ASCII digits, `crypto.hash_pin` succeeds and
produces a bcrypt credential with the drawn salt. -/
theorem hash_pin_ok_of_4_ascii_digits {p : String} (hlen : p.length = 4)
    (hdig : p.data.all Char.isDigit = true) (s : Nat) :
    Crypto.hash_pin p s = .ok (.bcrypt BCRYPT_COST s p) := by
  have hne : (p == "") = false := by
    rw [beq_eq_false_iff_ne]
    intro hcontra
    rw [hcontra] at hlen
    simp at hlen
  have hpy : pyStrIsDigit p = true := by
    unfold pyStrIsDigit
    rw [hne]
    simp only [Bool.not_false, Bool.true_and]
    rw [List.all_eq_true] at hdig ⊢
    intro c hc
    have := hdig c hc
    simp [pyIsDigit, this]
  unfold Crypto.hash_pin
  rw [hne, hpy]
  simp [hlen]

/-! ## Demo fixtures for witnesses -/

/-- A stored credential obtained by hashing the PIN `"1234"` with salt 0. -/
def demoCredential : PinCredential := .bcrypt BCRYPT_COST 0 "1234"

/-- Wallet 1: balance 100, PIN `"1234"`. -/
def demoWallet : Wallet :=
  { id := 1, user_id := 1, balance := 100, pin_hash := demoCredential, status := .ACTIVE }

/-- Wallet 2: balance 0, PIN `"5678"`. -/
def demoWallet2 : Wallet :=
  { id := 2, user_id := 2, balance := 0,
    pin_hash := .bcrypt BCRYPT_COST 1 "5678", status := .ACTIVE }

/-- A two-wallet table with distinct primary keys. -/
def demoDb : WalletDb := [demoWallet, demoWallet2]

/-! ## Claims -/

/-- Claim C1: for every existing wallet and correct PIN, `deposit` with
`amount > 0` increases the wallet's balance by exactly `amount` (and
commits exactly that row), and for `amount <= 0` it fails with
`InvalidAmount` leaving the table unchanged.  The `amount > 0` gate is
the spec-modelled route layer; the PIN check and mutation are
`deposit_wallet` from `app/crud/wallet.py`. -/
theorem c1_deposit_correct (db : WalletDb) (i : Nat) (pin : String) (w : Wallet)
    (hw : get_wallet db i = some w)
    (hpin : Crypto.verify_pin pin w.pin_hash = true) :
    (∀ amount : ℚ, 0 < amount →
      deposit db i amount pin =
        (.ok { w with balance := w.balance + amount },
         db_update db { w with balance := w.balance + amount })) ∧
    (∀ amount : ℚ, amount ≤ 0 →
      deposit db i amount pin = (.invalidAmount, db)) := by
  constructor
  · intro amount hpos
    unfold deposit
    rw [if_neg (not_le.mpr hpos)]
    unfold deposit_wallet
    rw [hw]
    simp [hpin]
  · intro amount hneg
    unfold deposit
    rw [if_pos hneg]

/-- Witness for C1 on the demo table: depositing 50 with the correct
PIN credits wallet 1 from 100 to 150; depositing −5 is rejected with
`InvalidAmount` and the table is unchanged. -/
theorem c1_deposit_correct_witness :
    deposit demoDb 1 50 "1234" =
      (.ok { demoWallet with balance := demoWallet.balance + 50 },
       db_update demoDb { demoWallet with balance := demoWallet.balance + 50 }) ∧
    deposit demoDb 1 (-5) "1234" = (.invalidAmount, demoDb) :=
  ⟨(c1_deposit_correct demoDb 1 "1234" demoWallet rfl rfl).1 50 (by decide),
   (c1_deposit_correct demoDb 1 "1234" demoWallet rfl rfl).2 (-5) (by decide)⟩

/-- Claim C2: starting from a table whose balances are all nonnegative,
every balance-mutating operation — the deposit path and both legs of a
transfer — leaves every balance nonnegative (deposits add a positive
amount; the spec-modelled `atomic_mutate` rejects any result below 0
with `InsufficientFunds`). -/
theorem c2_balance_nonneg (db : WalletDb) (hnn : allBalancesNonneg db)
    (i f t : Nat) (amount : ℚ) (pin : String) :
    allBalancesNonneg (deposit db i amount pin).2 ∧
    allBalancesNonneg (transfer db f t amount pin).2 := by
  constructor
  · rcases deposit_snd db i amount pin with h | ⟨hpos, w, hw, h⟩
    · rw [h]; exact hnn
    · rw [h]
      refine nonneg_db_update hnn ?_
      have hb := hnn w (get_wallet_mem hw).1
      exact add_nonneg hb (le_of_lt hpos)
  · rcases transfer_snd db f t amount pin with
      h | ⟨fw, fw', db1, tw, tw', hg, hfw', hnn1, hdb1, htw, htw', hnn2, h⟩
    · rw [h]; exact hnn
    · rw [h]
      have h1 : allBalancesNonneg db1 := by
        rw [hdb1]
        exact nonneg_db_update hnn (by rw [hfw']; exact hnn1)
      exact nonneg_db_update h1 (by rw [htw']; exact hnn2)

/-- Witness for C2: on the demo table (balances 100 and 0, all
nonnegative), a deposit of 40 into wallet 1 and a transfer of 40 from
wallet 1 to wallet 2 both leave every balance nonnegative. -/
theorem c2_balance_nonneg_witness :
    allBalancesNonneg (deposit demoDb 1 40 "1234").2 ∧
    allBalancesNonneg (transfer demoDb 1 2 40 "1234").2 :=
  c2_balance_nonneg demoDb (by decide) 1 1 2 40 "1234"

/-- Claim C3: a transfer conserves the total balance of the table on
every path — each rejection (self-transfer, invalid amount, missing
wallet, incorrect PIN, insufficient funds, compensated credit failure)
leaves the table untouched, and a successful debit+credit moves the
amount without changing the sum.  Requires the wallet table's primary
keys to be unique. -/
theorem c3_transfer_conservation (db : WalletDb)
    (hnd : (db.map Wallet.id).Nodup) (f t : Nat) (amount : ℚ) (pin : String) :
    totalBalance (transfer db f t amount pin).2 = totalBalance db := by
  rcases transfer_snd db f t amount pin with
    h | ⟨fw, fw', db1, tw, tw', hg, hfw', hnn1, hdb1, htw, htw', hnn2, h⟩
  · rw [h]
  · rw [h]
    have hfmem := get_wallet_mem hg
    have htmem := get_wallet_mem htw
    have hnd1 : (db1.map Wallet.id).Nodup := by
      rw [hdb1, db_update_map_id]; exact hnd
    have e1 : totalBalance db1 = totalBalance db - fw.balance + fw'.balance := by
      rw [hdb1]
      exact totalBalance_db_update hnd hfmem.1 (by rw [hfw'])
    have e2 : totalBalance (db_update db1 tw') =
        totalBalance db1 - tw.balance + tw'.balance :=
      totalBalance_db_update hnd1 htmem.1 (by rw [htw'])
    rw [e2, e1, hfw', htw']
    dsimp only
    ring

/-- Witness for C3: transferring 40 from wallet 1 (balance 100) to
wallet 2 (balance 0) preserves the total balance of the demo table. -/
theorem c3_transfer_conservation_witness :
    totalBalance (transfer demoDb 1 2 40 "1234").2 = totalBalance demoDb :=
  c3_transfer_conservation demoDb (by decide) 1 2 40 "1234"

/-- Claim C4: for 4-ASCII-digit PINs, `crypto.hash_pin` yields the
bcrypt credential embedding the drawn salt, `crypto.verify_pin`
round-trips (`verify(p, hash(p)) = true`), and discriminates
(`verify(p1, hash(p2)) = false` for `p1 ≠ p2`) — under the ideal-hash
reading of bcrypt (digest injective in the input for a fixed salt). -/
theorem c4_hash_verify_roundtrip (p1 p2 : String) (s : Nat)
    (h1len : p1.length = 4) (h1dig : p1.data.all Char.isDigit = true)
    (h2len : p2.length = 4) (h2dig : p2.data.all Char.isDigit = true)
    (hneq : p1 ≠ p2) :
    Crypto.hash_pin p1 s = .ok (.bcrypt BCRYPT_COST s p1) ∧
    Crypto.verify_pin p1 (.bcrypt BCRYPT_COST s p1) = true ∧
    Crypto.hash_pin p2 s = .ok (.bcrypt BCRYPT_COST s p2) ∧
    Crypto.verify_pin p1 (.bcrypt BCRYPT_COST s p2) = false := by
  have hne1 : (p1 == "") = false := by
    rw [beq_eq_false_iff_ne]
    intro hcontra
    rw [hcontra] at h1len
    simp at h1len
  refine ⟨hash_pin_ok_of_4_ascii_digits h1len h1dig s, ?_,
          hash_pin_ok_of_4_ascii_digits h2len h2dig s, ?_⟩
  · unfold Crypto.verify_pin
    rw [hne1]
    simp [Crypto.pwd_context_verify, Crypto.credentialIsEmptyString]
  · unfold Crypto.verify_pin
    rw [hne1]
    simp [Crypto.pwd_context_verify, Crypto.credentialIsEmptyString]
    exact hneq

/-- Witness for C4 at `p1 = "1234"`, `p2 = "5678"`, salt 7. -/
theorem c4_hash_verify_roundtrip_witness :
    Crypto.hash_pin "1234" 7 = .ok (.bcrypt BCRYPT_COST 7 "1234") ∧
    Crypto.verify_pin "1234" (.bcrypt BCRYPT_COST 7 "1234") = true ∧
    Crypto.hash_pin "5678" 7 = .ok (.bcrypt BCRYPT_COST 7 "5678") ∧
    Crypto.verify_pin "1234" (.bcrypt BCRYPT_COST 7 "5678") = false :=
  c4_hash_verify_roundtrip "1234" "5678" 7 rfl rfl rfl rfl (by decide)

/-- Claim C5, counterexample to the claim as stated: the Arabic-Indic
digit string `"٠١٢٣"` (U+0660–U+0663) is *not* a string of ASCII
digits, yet `crypto.hash_pin` accepts it, because Python's
`str.isdigit` is `True` on all Unicode digits, not only ASCII ones. -/
theorem c5_counterexample :
    Crypto.hash_pin "٠١٢٣" 0 = .ok (.bcrypt BCRYPT_COST 0 "٠١٢٣") ∧
    "٠١٢٣".data.all Char.isDigit = false := by
  constructor
  · rfl
  · rfl

/-- Claim C5 (amended): `crypto.hash_pin` succeeds exactly on nonempty
4-character strings whose characters Python's `str.isdigit` accepts —
every string of 4 ASCII digits succeeds; an empty string or a string
with a non-digit character fails with `ValueError("PIN must contain
only digits")`; a digit string of length ≠ 4 fails with
`ValueError("PIN must be exactly 4 digits")` (both realising
`InvalidPinFormat`).  Contrary to the claim's "ASCII", strings of 4
non-ASCII Unicode digits are accepted. -/
theorem c5_hash_input_validation (p : String) (s : Nat) :
    (p.length = 4 ∧ p.data.all pyIsDigit = true →
      Crypto.hash_pin p s = .ok (.bcrypt BCRYPT_COST s p)) ∧
    (p = "" ∨ p.data.all pyIsDigit = false →
      Crypto.hash_pin p s = .error .mustContainOnlyDigits) ∧
    (p ≠ "" ∧ p.data.all pyIsDigit = true ∧ p.length ≠ 4 →
      Crypto.hash_pin p s = .error .mustBeExactly4Digits) := by
  refine ⟨?_, ?_, ?_⟩
  · rintro ⟨hlen, hdig⟩
    have hne : (p == "") = false := by
      rw [beq_eq_false_iff_ne]
      intro hcontra
      rw [hcontra] at hlen
      simp at hlen
    have hpy : pyStrIsDigit p = true := by
      unfold pyStrIsDigit
      rw [hne, hdig]
      rfl
    unfold Crypto.hash_pin
    rw [hne, hpy]
    simp [hlen]
  · intro hbad
    unfold Crypto.hash_pin
    rcases hbad with rfl | hdig
    · rfl
    · have hpy : pyStrIsDigit p = false := by
        unfold pyStrIsDigit
        rw [hdig]
        simp
      rw [hpy]
      simp
  · rintro ⟨hne, hdig, hlen⟩
    have hne' : (p == "") = false := beq_eq_false_iff_ne.mpr hne
    have hpy : pyStrIsDigit p = true := by
      unfold pyStrIsDigit
      rw [hne', hdig]
      rfl
    unfold Crypto.hash_pin
    rw [hne', hpy]
    simp [hlen]

/-- Witness for C5 (amended): `"1234"` hashes successfully, `"12a4"`
fails the digit check, `"123"` fails the length check. -/
theorem c5_hash_input_validation_witness :
    Crypto.hash_pin "1234" 3 = .ok (.bcrypt BCRYPT_COST 3 "1234") ∧
    Crypto.hash_pin "12a4" 3 = .error .mustContainOnlyDigits ∧
    Crypto.hash_pin "123" 3 = .error .mustBeExactly4Digits :=
  ⟨(c5_hash_input_validation "1234" 3).1 ⟨rfl, rfl⟩,
   (c5_hash_input_validation "12a4" 3).2.1 (Or.inr rfl),
   (c5_hash_input_validation "123" 3).2.2 ⟨by decide, rfl, by decide⟩⟩

/-- Claim C6: PIN verification never raises — both `crypto.verify_pin`
and `security.verify_pin` are total functions into `Bool` (the
`try/except` swallows the exception the underlying bcrypt check raises
on a malformed stored hash), and on any malformed credential, and on an
empty candidate, the result is `false`. -/
theorem c6_verify_never_raises :
    (∀ plain raw, Crypto.verify_pin plain (.malformed raw) = false) ∧
    (∀ cred, Crypto.verify_pin "" cred = false) ∧
    (∀ plain raw, Security.verify_pin plain (.malformed raw) = false) := by
  refine ⟨?_, ?_, ?_⟩
  · intro plain raw
    unfold Crypto.verify_pin
    split
    · rfl
    · rfl
  · intro cred
    unfold Crypto.verify_pin
    rw [if_pos]
    simp
  · intro plain raw
    rfl

/-- Claim C7: when the wallet exists but the candidate PIN does not
verify against its stored hash, `deposit_wallet` raises the 401
`Incorrect PIN` rejection before any mutation, leaving the whole table
(hence the wallet's balance and every other row) exactly as it was. -/
theorem c7_incorrect_pin_no_mutation (db : WalletDb) (i : Nat) (amount : ℚ)
    (pin : String) (w : Wallet) (hw : get_wallet db i = some w)
    (hpin : Crypto.verify_pin pin w.pin_hash = false) :
    deposit_wallet db i amount pin = (.incorrectPin, db) := by
  unfold deposit_wallet
  rw [hw]
  simp [hpin]

/-- Witness for C7: a deposit into wallet 1 with the wrong PIN `"9999"`
is rejected with `incorrectPin` and the demo table is unchanged. -/
theorem c7_incorrect_pin_no_mutation_witness :
    deposit_wallet demoDb 1 77 "9999" = (.incorrectPin, demoDb) :=
  c7_incorrect_pin_no_mutation demoDb 1 77 "9999" demoWallet rfl rfl

/-- Claim C8: hashing the same 4-digit PIN twice with the fresh random
salts drawn by the two calls (explicit here as `s1 ≠ s2`) produces
distinct credentials, for both `crypto.hash_pin` (via passlib) and
`security.hash_pin` (direct bcrypt) — the salt is embedded in the
credential, so equal PINs never yield identical stored hashes. -/
theorem c8_salt_uniqueness (p : String) (s1 s2 : Nat) (hs : s1 ≠ s2)
    (hlen : p.length = 4) (hdig : p.data.all Char.isDigit = true) :
    Crypto.hash_pin p s1 = .ok (.bcrypt BCRYPT_COST s1 p) ∧
    Crypto.hash_pin p s2 = .ok (.bcrypt BCRYPT_COST s2 p) ∧
    (PinCredential.bcrypt BCRYPT_COST s1 p) ≠ (PinCredential.bcrypt BCRYPT_COST s2 p) ∧
    Security.hash_pin p s1 ≠ Security.hash_pin p s2 := by
  refine ⟨hash_pin_ok_of_4_ascii_digits hlen hdig s1,
          hash_pin_ok_of_4_ascii_digits hlen hdig s2, ?_, ?_⟩
  · intro hcontra
    injection hcontra with h1 h2 h3
    exact hs h2
  · unfold Security.hash_pin
    intro hcontra
    injection hcontra with h1 h2 h3
    exact hs h2

/-- Witness for C8 at PIN `"1234"`, salts 0 and 1. -/
theorem c8_salt_uniqueness_witness :
    Crypto.hash_pin "1234" 0 = .ok (.bcrypt BCRYPT_COST 0 "1234") ∧
    Crypto.hash_pin "1234" 1 = .ok (.bcrypt BCRYPT_COST 1 "1234") ∧
    (PinCredential.bcrypt BCRYPT_COST 0 "1234") ≠ (PinCredential.bcrypt BCRYPT_COST 1 "1234") ∧
    Security.hash_pin "1234" 0 ≠ Security.hash_pin "1234" 1 :=
  c8_salt_uniqueness "1234" 0 1 (by decide) rfl rfl

/-- Claim C9: once a caller has made `PIN_VERIFY_LIMIT` (5) attempts
inside the 60-second window ending at time `t`, a further attempt at
`t` is rejected with `RateLimitExceeded`: the outcome is the same for
every candidate PIN and credential (PIN Custody is never consulted) and
the guard's state is untouched. -/
theorem c9_rate_guard_blocks_sixth (attempts : List Nat) (t : Nat)
    (pin : String) (cred : PinCredential)
    (h : PIN_VERIFY_LIMIT_COUNT ≤ countInWindow attempts t PIN_VERIFY_WINDOW_SECONDS) :
    pin_verify_guarded attempts t pin cred = (.rateLimitExceeded, attempts) := by
  unfold pin_verify_guarded
  rw [if_neg]
  simp only [rate_allow, decide_eq_true_eq, not_lt]
  exact h

/-- Witness for C9: after 5 attempts at seconds 0,10,20,30,40, the 6th
attempt at second 50 is rejected with the guard state unchanged, even
with the correct PIN in hand. -/
theorem c9_rate_guard_blocks_sixth_witness :
    pin_verify_guarded [0, 10, 20, 30, 40] 50 "1234" demoCredential =
      (.rateLimitExceeded, [0, 10, 20, 30, 40]) :=
  c9_rate_guard_blocks_sixth [0, 10, 20, 30, 40] 50 "1234" demoCredential (by decide)

/-- Claim C10: `verify_wallet_pin` returns `false` whenever the wallet
id is absent from the table, for every candidate PIN — it neither
raises nor distinguishes a missing wallet from a wrong PIN in its
`Bool` result. -/
theorem c10_missing_wallet_verify_false (db : WalletDb) (i : Nat) (pin : String)
    (h : get_wallet db i = none) :
    verify_wallet_pin db i pin = false := by
  unfold verify_wallet_pin
  rw [h]

/-- Witness for C10: wallet id 99 is not in the demo table, so
verification returns `false`. -/
theorem c10_missing_wallet_verify_false_witness :
    verify_wallet_pin demoDb 99 "1234" = false :=
  c10_missing_wallet_verify_false demoDb 99 "1234" rfl

end BuiltToBreak
